import Mathlib

/-!
# Verification of the VK-Gateway request-routing pipeline

A shallow embedding, in Lean 4, of the routing core of the VK-Gateway
reverse proxy (src/proxy.rs, src/health.rs, src/load_balancer/strategies.rs,
src/rate_limiter.rs, src/db.rs, src/main.rs), together with proofs and
refutations of the specification claims about it.

Strings from the Rust source (`&str`) are modelled as Lean `String`
(a wrapper around `List Char`); path manipulation mirrors Rust's
`trim_start_matches('/')`, `trim_end_matches('/')`, `split('/')` and
`strip_prefix` character by character.  External collaborators (the
PostgreSQL catalog, the hyper HTTP client, `http::Uri` parsing, Redis)
appear as explicit oracle parameters of the handler model, never as
stubs of code that lives in this repository.
-/

namespace VKGateway

/-- Catalog record for a storage node: struct `Backend` in `db.rs`. -/
structure Backend where
  server_id : String
  provider : String
  server_name : String
  server_url : String
deriving DecidableEq, Inhabited

/-- Per-backend health record: struct `HealthStatus` in `health.rs`.
The `last_check : Instant` field is a wall-clock timestamp never read by
any routing decision; it is omitted from the model. -/
structure HealthStatus where
  is_healthy : Bool
  consecutive_failures : Nat
deriving DecidableEq, Inhabited

/-! ## Character-level string helpers (Rust `str` methods) -/

/-- Rust `str::split('/')` worker: accumulate the current segment
(reversed) and cut at every `'/'`.  `split` on `""` yields `[""]`,
and a trailing separator yields a trailing empty segment, exactly as
in Rust. -/
def splitAux : List Char → List Char → List (List Char)
  | cur, [] => [cur.reverse]
  | cur, c :: cs => if c = '/' then cur.reverse :: splitAux [] cs else splitAux (c :: cur) cs

/-- Rust `path.trim_start_matches('/').split('/')` on the character list. -/
def splitSlash (s : List Char) : List (List Char) :=
  splitAux [] (s.dropWhile (· = '/'))

/-- The segment list of a request path, as `proxy.rs` line 74 computes it. -/
def pathSegments (p : String) : List String :=
  (splitSlash p.data).map String.mk

/-- Rust `str::strip_prefix`: `some` of the remainder when `pre` is a
prefix, `none` otherwise. -/
def stripPrefixChars : List Char → List Char → Option (List Char)
  | [], s => some s
  | _ :: _, [] => none
  | p :: ps, c :: cs => if p = c then stripPrefixChars ps cs else none

/-- Rust `path.strip_prefix(pre)` on `String`s. -/
def stripPrefixRust (s pre : String) : Option String :=
  (stripPrefixChars pre.data s.data).map String.mk

/-- Rust `str::trim_end_matches('/')`: drop every trailing `'/'`. -/
def trimEndSlashes (s : String) : String :=
  String.mk (s.data.reverse.dropWhile (· = '/')).reverse

/-! ## File-ID extraction (`proxy.rs`, `extract_file_id_from_path`, lines 73–100) -/

/-- The `extract_file_id_from_path` function of `proxy.rs`.  The Rust function runs
three pattern blocks in order with early returns; a block whose guard
matches but whose sub-cases do not falls through to the next block, which
the else-if chain below reproduces exactly (a failing sub-case always
falsifies the later guards it shares segments with, except the
`len ≥ 5 ∧ seg3 ≠ "download"` fall-through, whose `segments[0] = "api"`
makes every later guard false as well — encoded here by repeating the
full guard on each branch). -/
def extract_file_id_from_path (path : String) : Option String :=
  let s := pathSegments path
  if s.length ≥ 4 ∧ s.getD 0 "" = "api" ∧ s.getD 2 "" = "files"
      ∧ s.length ≥ 5 ∧ s.getD 3 "" = "download" then
    some (s.getD 4 "")
  else if s.length ≥ 4 ∧ s.getD 0 "" = "api" ∧ s.getD 2 "" = "files"
      ∧ s.length = 4 then
    some (s.getD 3 "")
  else if s.length ≥ 2 ∧ s.getD 0 "" = "files"
      ∧ s.length ≥ 3 ∧ s.getD 1 "" = "download" then
    some (s.getD 2 "")
  else if s.length ≥ 2 ∧ s.getD 0 "" = "files" ∧ s.length = 2 then
    some (s.getD 1 "")
  else if s.length = 2 ∧ s.getD 0 "" = "download" then
    some (s.getD 1 "")
  else
    none

/-! ## Health monitor (`health.rs`) -/

/-- The health map: `HashMap<String, HealthStatus>` modelled as an
association list keyed by `server_id`.  Only `lookup`-style access is
performed by the routing code. -/
abbrev HealthMap := List (String × HealthStatus)

/-- Association-list lookup (the `HashMap::get` of the source). -/
def hmLookup (m : HealthMap) (sid : String) : Option HealthStatus :=
  match m with
  | [] => none
  | (k, v) :: rest => if k = sid then some v else hmLookup rest sid

/-- From `health.rs` lines 96–100: the `or_insert` default for a backend
that has never been probed: healthy, zero consecutive failures. -/
def initialHealthStatus : HealthStatus := ⟨true, 0⟩

/-- From `health.rs` lines 104–119: the probe-result state update of
`check_backend` applied to an existing entry: on success reset to
healthy/0; on failure increment `consecutive_failures` and mark
unhealthy once the new value reaches 3. -/
def healthStep (s : HealthStatus) (probeOk : Bool) : HealthStatus :=
  if probeOk then ⟨true, 0⟩
  else
    let f := s.consecutive_failures + 1
    ⟨if f ≥ 3 then false else s.is_healthy, f⟩

/-- One full `check_backend` update for a backend: the entry is created
lazily with `initialHealthStatus` (`or_insert`) and then mutated by
`healthStep`; so the state after any finite probe history is a fold of
`healthStep` over the history starting from `initialHealthStatus`. -/
def healthAfter (history : List Bool) : HealthStatus :=
  history.foldl healthStep initialHealthStatus

/-- The `is_backend_healthy` query of `health.rs` (lines 139–145): absent entries
default to healthy. -/
def is_backend_healthy (m : HealthMap) (sid : String) : Bool :=
  match hmLookup m sid with
  | some st => st.is_healthy
  | none => true

/-- The `get_healthy_backends` query of `health.rs` (lines 123–136). -/
def get_healthy_backends (m : HealthMap) (backends : List Backend) : List Backend :=
  backends.filter (fun b => is_backend_healthy m b.server_id)

/-! ## Gateway stats (`proxy.rs`, `gateway_stats`, lines 295–316) -/

/-- The `healthy_backends` aggregate: count of health-map *entries*
whose `is_healthy` is true (`health_status.values().filter(...).count()`). -/
def statsHealthyCount (m : HealthMap) : Nat :=
  ((m.map (·.2)).filter (·.is_healthy)).length

/-- The per-backend `is_healthy` field of the stats JSON:
`status.map(|s| s.is_healthy).unwrap_or(true)` (line 309). -/
def statsReportedHealthy (m : HealthMap) (b : Backend) : Bool :=
  match hmLookup m b.server_id with
  | some st => st.is_healthy
  | none => true

/-! ## The proxy handlers (`proxy.rs`)

The handler's interactions with processes outside this repository are
oracle fields of `Env`:

* `db` — `db::get_file_backend` (a SQL query): `Except Unit (Option String)`,
  `.error` being `sqlx::Error`;
* `select` — the trait call `load_balancer.select_backend` on the healthy
  subset (the concrete strategies are modelled separately below; here the
  handler sees only its `Option<Backend>` answer);
* `uriOk` — whether `backend_url.parse::<Uri>()` succeeds;
* `transportOk` — whether `client.request(req)` succeeds.
-/

structure Env where
  backends : List Backend
  health : HealthMap
  db : String → Except Unit (Option String)
  select : List Backend → Option Backend
  uriOk : String → Bool
  transportOk : String → Bool

deriving instance DecidableEq for Except

/-- Outcome and balancer-event log of one `proxy_handler` run.
`result` is `.error status` for an early `Err(StatusCode)` return and
`.ok url` for a forwarded request (carrying the rewritten URI);
`selects` lists the backends returned by `load_balancer.select_backend`,
`releases` the backends passed to `load_balancer.release_backend`. -/
structure HandlerRun where
  result : Except Nat String
  selects : List Backend
  releases : List Backend
deriving DecidableEq

/-- From `proxy.rs`: `select_backend_via_load_balancer` (lines 50–65) —
filter to the healthy subset, 503 on empty, 503 when the balancer
returns none. -/
def select_backend_via_load_balancer (env : Env) : Except Nat Backend :=
  let healthy := get_healthy_backends env.health env.backends
  if healthy.isEmpty then .error 503
  else
    match env.select healthy with
    | some b => .ok b
    | none => .error 503

/-- A load-balancer selection with its event log: the selected backend
is recorded as a selection event. -/
def chooseViaLB (env : Env) : Except Nat Backend × List Backend :=
  match select_backend_via_load_balancer env with
  | .ok b => (.ok b, [b])
  | .error s => (.error s, [])

/-- The backend-choice phase of `proxy_handler` (lines 110–148).
Returns the chosen backend (or early error status) together with the
list of backends obtained through the load balancer (empty for the
content-addressed path). -/
def chooseBackend (env : Env) (path : String) : Except Nat Backend × List Backend :=
  match extract_file_id_from_path path with
  | some fid =>
    match env.db fid with
    | .ok (some sid) =>
      match env.backends.find? (fun b => b.server_id == sid) with
      | some b =>
        if is_backend_healthy env.health sid then (.ok b, []) else (.error 503, [])
      | none => (.error 500, [])
    | .ok none => chooseViaLB env
    | .error _ => chooseViaLB env
  | none => chooseViaLB env

/-- From `proxy.rs` lines 159–161: `req.uri().path_and_query()` rendered as a
string, `"/"` when absent.  For an origin-form request the value is the
path followed by `?query` when a query is present. -/
def pathAndQuery (path : String) (query : Option String) : String :=
  match query with
  | some q => path ++ "?" ++ q
  | none => if path = "" then "/" else path

/-- The forwarding phase of `proxy_handler` (lines 159–207): build the
forward URL from the backend's `server_url` with trailing `'/'` trimmed,
500 without release on URI-parse failure, 502 with release on transport
failure, release and stream back on success. -/
def forwardRequest (env : Env) (b : Backend) (sel : List Backend)
    (path : String) (query : Option String) : HandlerRun :=
  let url := trimEndSlashes b.server_url ++ pathAndQuery path query
  if env.uriOk url then
    if env.transportOk url then ⟨.ok url, sel, [b]⟩
    else ⟨.error 502, sel, [b]⟩
  else ⟨.error 500, sel, []⟩

/-- The `proxy_handler` entry point of `proxy.rs` (lines 103–208). -/
def proxy_handler (env : Env) (path : String) (query : Option String) : HandlerRun :=
  match chooseBackend env path with
  | (.ok b, sel) => forwardRequest env b sel path query
  | (.error s, sel) => ⟨.error s, sel, []⟩

/-- The `proxy_to_specific_backend` handler of `proxy.rs` (lines 211–287), mounted in
`main.rs` at route `/api/v1/backend/:server_id/*path`; axum hands the
handler the *original* request URI, so `path` below is the full request
path (e.g. `/api/v1/backend/B/objects/42`).  404 on registry miss, 503
on unhealthy, then strip the prefix `/backend/{server_id}` — keeping the
path unchanged when the prefix does not match (`unwrap_or(path)`) — and
forward to `server_url` (trailing `'/'` trimmed) + path + `?query`.
No balancer event is issued on any path of this handler. -/
def proxy_to_specific_backend (env : Env) (server_id : String)
    (path : String) (query : Option String) : Except Nat String :=
  match env.backends.find? (fun b => b.server_id == server_id) with
  | none => .error 404
  | some b =>
    if is_backend_healthy env.health server_id then
      let backend_path := (stripPrefixRust path ("/backend/" ++ server_id)).getD path
      let qs := match query with
        | some q => "?" ++ q
        | none => ""
      let url := trimEndSlashes b.server_url ++ backend_path ++ qs
      if env.uriOk url then
        if env.transportOk url then .ok url else .error 502
      else .error 500
    else .error 503

/-! ## Load balancers (`load_balancer/strategies.rs`) -/

/-- From `strategies.rs`: `RoundRobinBalancer::select_backend` (lines 24–31) — `None` on an
empty list without touching the counter; otherwise return the entry at
`counter % len` and increment the atomic counter. -/
def rrStep (bs : List Backend) (c : Nat) : Option Backend × Nat :=
  if h : bs.length = 0 then (none, c)
  else (some (bs.get ⟨c % bs.length, Nat.mod_lt _ (Nat.pos_of_ne_zero h)⟩), c + 1)

/-- Running `N` sequential `select_backend` calls of the round-robin balancer on
the same candidate list, starting from counter value `c`; the list of
returned backends. -/
def rrRun (bs : List Backend) (c : Nat) : Nat → List (Option Backend)
  | 0 => []
  | n + 1 =>
    let s := rrStep bs c
    s.1 :: rrRun bs s.2 n

/-- The least-connections counter map
(`Arc<RwLock<HashMap<String, usize>>>`) as an association list. -/
abbrev ConnMap := List (String × Nat)

/-- Rust `connections.get(&server_id).unwrap_or(&0)`. -/
def connCount (m : ConnMap) (sid : String) : Nat :=
  match m with
  | [] => 0
  | (k, v) :: rest => if k = sid then v else connCount rest sid

/-- Rust `*connections.entry(id).or_insert(0) += 1` (line 77). -/
def connIncr (m : ConnMap) (sid : String) : ConnMap :=
  match m with
  | [] => [(sid, 1)]
  | (k, v) :: rest => if k = sid then (k, v + 1) :: rest else (k, v) :: connIncr rest sid

/-- Rust `if let Some(count) = connections.get_mut(&id)` then `*count = count.saturating_sub(1)`
(lines 85–87): decrement the entry if present, saturating at zero;
no-op when the key is absent. -/
def connDecr (m : ConnMap) (sid : String) : ConnMap :=
  match m with
  | [] => []
  | (k, v) :: rest => if k = sid then (k, v - 1) :: rest else (k, v) :: connDecr rest sid

/-- The argmin walk of `LeastConnectionsBalancer::select_backend`
(lines 65–70): Rust `Iterator::min_by_key` keeps the *last* of
equally-minimal elements, i.e. the current best is replaced whenever the
next key is `≤` the best key. -/
def lcArgminGo (m : ConnMap) (best : Backend) : List Backend → Backend
  | [] => best
  | b :: rest =>
    lcArgminGo m
      (if connCount m b.server_id ≤ connCount m best.server_id then b else best) rest

/-- From `strategies.rs`: `LeastConnectionsBalancer::select_backend` (lines 57–81) — `None` on
an empty candidate list; otherwise pick the minimal-count candidate and
increment its entry (`or_insert(0) += 1`). -/
def lcSelect (bs : List Backend) (m : ConnMap) : Option Backend × ConnMap :=
  match bs with
  | [] => (none, m)
  | b :: rest =>
    let sel := lcArgminGo m b rest
    (some sel, connIncr m sel.server_id)

/-- From `strategies.rs`: `LeastConnectionsBalancer::release_backend` (lines 83–88). -/
def lcRelease (m : ConnMap) (b : Backend) : ConnMap :=
  connDecr m b.server_id

/-- A lifetime of least-connections balancer calls: each event is one
`select_backend(bs)` call or one `release_backend(b)` call. -/
inductive LCEvent where
  | select : List Backend → LCEvent
  | release : Backend → LCEvent
deriving DecidableEq

/-- Trace state: the counter map, the multiset (as a list) of
`server_id`s selected and not yet released, and a well-formedness flag
that records whether every release so far matched a prior unreleased
selection. -/
def lcStep (st : ConnMap × List String × Bool) (e : LCEvent) :
    ConnMap × List String × Bool :=
  match e with
  | .select bs =>
    match lcSelect bs st.1 with
    | (some b, m') => (m', b.server_id :: st.2.1, st.2.2)
    | (none, m') => (m', st.2.1, st.2.2)
  | .release b =>
    (lcRelease st.1 b, st.2.1.erase b.server_id, st.2.2 && st.2.1.contains b.server_id)

/-- Run a full event word from the balancer's initial (empty) state. -/
def lcRun (w : List LCEvent) : ConnMap × List String × Bool :=
  w.foldl lcStep ([], [], true)

/-- The number of selections in a word: `select_backend` returns a
backend exactly when its candidate list is non-empty. -/
def selCount (w : List LCEvent) : Nat :=
  (w.filter (fun e => match e with
    | .select bs => !bs.isEmpty
    | .release _ => false)).length

/-- The number of `release_backend` calls in a word. -/
def relCount (w : List LCEvent) : Nat :=
  (w.filter (fun e => match e with
    | .select _ => false
    | .release _ => true)).length

/-- The sum of all entries of the connection-count map. -/
def sumCounts (m : ConnMap) : Nat :=
  (m.map (·.2)).sum

/-! ## Rate limiter (`rate_limiter.rs`, `check_rate_limit`, lines 28–78)

The Redis state relevant to one token `T` is the pair of keys
`rate_limit:count:T` and `rate_limit:blocked:T`; `RedisTokenState`
models their values and pending expirations (`count`, `countTtl`,
`blocked` = TTL installed with `SET ... EX`).  Distinct tokens touch
distinct keys, so the per-token projection is exact for a sequential
single-token history. -/

structure RateLimiterConfig where
  max_requests : Nat
  window_secs : Nat
  block_duration_secs : Nat

structure RedisTokenState where
  count : Option Nat
  countTtl : Option Nat
  blocked : Option Nat
deriving DecidableEq

/-- Neither key present: a fresh token. -/
def freshToken : RedisTokenState := ⟨none, none, none⟩

/-- The `check_rate_limit` function: returns `(allowed, new state)`.
Lines 37–41: existing block key denies immediately.
Line 46: `INCR` creates the count key at 1 or increments it.
Lines 49–51: expiration is set when the incremented value is 1.
Lines 54–74: over the limit → install the block key with
`block_duration_secs`, delete the count key (value and TTL), deny. -/
def check_rate_limit (cfg : RateLimiterConfig) (s : RedisTokenState) :
    Bool × RedisTokenState :=
  if s.blocked.isSome then (false, s)
  else
    let n := (s.count.getD 0) + 1
    let ttl := if n = 1 then some cfg.window_secs else s.countTtl
    if n > cfg.max_requests then
      (false, ⟨none, none, some cfg.block_duration_secs⟩)
    else
      (true, ⟨some n, ttl, s.blocked⟩)

/-- Running `n` sequential `check_rate_limit` calls for one token starting from
`freshToken`: final state and the list of allow/deny answers. -/
def rateRun (cfg : RateLimiterConfig) : Nat → RedisTokenState × List Bool
  | 0 => (freshToken, [])
  | n + 1 =>
    let p := rateRun cfg n
    let c := check_rate_limit cfg p.1
    (c.2, p.2 ++ [c.1])

/-! ## Theorems for the claims -/

/-- C3 (counterexample): the claim says file-ID extraction returns no ID
for each of `/api/v1/files/`, `/files/` and `/`; in fact Rust's
`split('/')` keeps the trailing empty segment, so the first two paths
match the 4-segment (resp. 2-segment) patterns with an *empty* ID and
the extractor returns `Some("")`, not `None`. -/
theorem claim_C3_counterexample :
    extract_file_id_from_path "/api/v1/files/" = some "" ∧
    extract_file_id_from_path "/files/" = some "" ∧
    (some "" : Option String) ≠ none := by
  decide

/-- C3 (amended): extraction on `/` returns no file ID, while on
`/api/v1/files/` and `/files/` it returns the empty-string file ID
`Some("")` (the trailing `'/'` produces an empty final segment that the
4- and 2-segment patterns accept). -/
theorem claim_C3_theorem :
    extract_file_id_from_path "/" = none ∧
    extract_file_id_from_path "/api/v1/files/" = some "" ∧
    extract_file_id_from_path "/files/" = some "" := by
  decide

/-- C1 (code evaluated at the failing input): for the request
`PUT /api/v1/backend/B/objects/42?x=1` with `B`'s `server_url`
`https://b.example.com`, the specific-backend handler forwards to
`https://b.example.com/api/v1/backend/B/objects/42?x=1` — the
`strip_prefix("/backend/B")` of `proxy.rs` line 242 never matches the
request path, which starts with `/api/v1/backend/B` because `main.rs`
mounts the route at `/api/v1/backend/:server_id/*path` — and not to the
specified `https://b.example.com/objects/42?x=1`. -/
theorem claim_C1_theorem :
    proxy_to_specific_backend
      { backends := [⟨"B", "prov", "backend B", "https://b.example.com"⟩],
        health := [],
        db := fun _ => .ok none,
        select := fun _ => none,
        uriOk := fun _ => true,
        transportOk := fun _ => true }
      "B" "/api/v1/backend/B/objects/42" (some "x=1")
      = .ok "https://b.example.com/api/v1/backend/B/objects/42?x=1" ∧
    (Except.ok "https://b.example.com/api/v1/backend/B/objects/42?x=1" : Except Nat String)
      ≠ .ok "https://b.example.com/objects/42?x=1" := by
  decide

/-- C9: with a non-empty registry and an empty health map (no backend
ever probed), the `/api/v1/stats` aggregate `healthy_backends` is `0`
(it counts only health-map entries with `is_healthy = true`), while the
same response reports every backend's per-backend `is_healthy` as `true`
and the routing path treats every backend as healthy (the healthy subset
is the whole registry). -/
theorem claim_C9_theorem (bs : List Backend) (h : bs ≠ []) :
    statsHealthyCount [] = 0 ∧
    (∀ b ∈ bs, statsReportedHealthy [] b = true) ∧
    get_healthy_backends [] bs = bs := by
  refine ⟨rfl, fun b _ => rfl, ?_⟩
  simp [get_healthy_backends, is_backend_healthy, hmLookup]

/-- C9 (witness): the theorem applied to the one-backend registry. -/
theorem claim_C9_witness :
    ([⟨"A", "prov", "a", "http://a"⟩] : List Backend) ≠ [] ∧
    (statsHealthyCount [] = 0 ∧
      (∀ b ∈ ([⟨"A", "prov", "a", "http://a"⟩] : List Backend),
        statsReportedHealthy [] b = true) ∧
      get_healthy_backends [] [⟨"A", "prov", "a", "http://a"⟩]
        = [⟨"A", "prov", "a", "http://a"⟩]) :=
  ⟨by decide, claim_C9_theorem _ (by decide)⟩

/-- Auxiliary invariant for C7: `healthStep` preserves
"unhealthy implies at least 3 consecutive failures". -/
lemma healthStep_preserves (s : HealthStatus) (r : Bool)
    (hs : s.is_healthy = false → 3 ≤ s.consecutive_failures) :
    (healthStep s r).is_healthy = false → 3 ≤ (healthStep s r).consecutive_failures := by
  cases r with
  | true => intro h; simp [healthStep] at h
  | false =>
    simp only [healthStep, Bool.false_eq_true, if_false]
    by_cases h3 : s.consecutive_failures + 1 ≥ 3
    · intro _; simpa using h3
    · simp only [if_neg h3]
      intro h
      exact absurd (hs h) (by omega)

/-- Auxiliary for C7: the invariant holds after any probe history. -/
lemma healthAfter_inv :
    ∀ (l : List Bool) (s : HealthStatus),
      (s.is_healthy = false → 3 ≤ s.consecutive_failures) →
      ((l.foldl healthStep s).is_healthy = false →
        3 ≤ (l.foldl healthStep s).consecutive_failures)
  | [], _, hs => hs
  | r :: l, s, hs => healthAfter_inv l (healthStep s r) (healthStep_preserves s r hs)

/-- C7: for every per-backend `HealthStatus` reachable by a finite
sequence of probe results from the lazily-created initial entry
(healthy, 0 failures), `is_healthy` is false only when
`consecutive_failures ≥ 3`; and a single probe success, in one update,
sets `is_healthy` to `true` and `consecutive_failures` to `0`. -/
theorem claim_C7_theorem (history : List Bool) (s : HealthStatus)
    (h : (healthAfter history).is_healthy = false) :
    3 ≤ (healthAfter history).consecutive_failures ∧
    healthStep s true = ⟨true, 0⟩ :=
  ⟨healthAfter_inv history initialHealthStatus (by simp [initialHealthStatus]) h,
   rfl⟩

/-- C7 (witness): three consecutive probe failures reach an unhealthy
state, where the theorem applies. -/
theorem claim_C7_witness :
    (healthAfter [false, false, false]).is_healthy = false ∧
    (3 ≤ (healthAfter [false, false, false]).consecutive_failures ∧
      healthStep ⟨false, 3⟩ true = ⟨true, 0⟩) :=
  ⟨by decide, claim_C7_theorem [false, false, false] ⟨false, 3⟩ (by decide)⟩

/-- Auxiliary for C6: the state and answers after `n ≤ max_requests`
calls (with `n ≥ 1`): count key at `n`, window TTL pending, no block,
all answers `allow`. -/
lemma rateRun_le (cfg : RateLimiterConfig) :
    ∀ n, 0 < n → n ≤ cfg.max_requests →
      rateRun cfg n = (⟨some n, some cfg.window_secs, none⟩, List.replicate n true)
  | 0, h0, _ => absurd h0 (by omega)
  | 1, _, hle => by
    simp only [rateRun, freshToken, check_rate_limit]
    simp only [Option.isSome_none, Bool.false_eq_true, if_false, Option.getD_none]
    have : ¬ (0 + 1 > cfg.max_requests) := by omega
    simp [this]
  | n + 2, _, hle => by
    have ih := rateRun_le cfg (n + 1) (by omega) (by omega)
    show (let p := rateRun cfg (n + 1); let c := check_rate_limit cfg p.1;
          (c.2, p.2 ++ [c.1]))
        = (⟨some (n + 2), some cfg.window_secs, none⟩, List.replicate (n + 2) true)
    rw [ih]
    simp only [check_rate_limit, Option.isSome_none, Bool.false_eq_true, if_false,
      Option.getD_some]
    have h1 : ¬ (n + 1 + 1 = 1) := by omega
    have h2 : ¬ (n + 1 + 1 > cfg.max_requests) := by omega
    simp only [if_neg h1, if_neg h2]
    rw [List.replicate_succ' (n + 1) true]

/-- C6: sequential rate-limiter model for one token starting from no
cache state: the first `max_requests` calls all return allow; the call
numbered `max_requests + 1` returns deny, installs the block key with
expiration `block_duration_secs` and deletes the count key (value and
TTL); and every call on a state where the block key is present returns
deny and leaves the state unchanged. -/
theorem claim_C6_theorem (cfg : RateLimiterConfig) (s : RedisTokenState)
    (hs : s.blocked.isSome) :
    (rateRun cfg cfg.max_requests).2 = List.replicate cfg.max_requests true ∧
    check_rate_limit cfg (rateRun cfg cfg.max_requests).1
      = (false, ⟨none, none, some cfg.block_duration_secs⟩) ∧
    check_rate_limit cfg s = (false, s) := by
  refine ⟨?_, ?_, by simp [check_rate_limit, hs]⟩
  · rcases Nat.eq_zero_or_pos cfg.max_requests with h0 | hpos
    · rw [h0]; rfl
    · rw [rateRun_le cfg cfg.max_requests hpos le_rfl]
  · rcases Nat.eq_zero_or_pos cfg.max_requests with h0 | hpos
    · rw [h0]
      show check_rate_limit cfg freshToken = _
      simp [check_rate_limit, freshToken, h0]
    · rw [rateRun_le cfg cfg.max_requests hpos le_rfl]
      simp only [check_rate_limit, Option.isSome_none, Bool.false_eq_true, if_false,
        Option.getD_some]
      have : cfg.max_requests + 1 > cfg.max_requests := by omega
      simp [this]

/-- C6 (witness): the theorem at `max_requests = 2`, `window = 60`,
`block = 300`, and a blocked state. -/
theorem claim_C6_witness :
    ((⟨none, none, some 300⟩ : RedisTokenState).blocked.isSome) ∧
    ((rateRun ⟨2, 60, 300⟩ 2).2 = List.replicate 2 true ∧
      check_rate_limit ⟨2, 60, 300⟩ (rateRun ⟨2, 60, 300⟩ 2).1
        = (false, ⟨none, none, some 300⟩) ∧
      check_rate_limit ⟨2, 60, 300⟩ ⟨none, none, some 300⟩
        = (false, ⟨none, none, some 300⟩)) :=
  ⟨by decide, claim_C6_theorem ⟨2, 60, 300⟩ ⟨none, none, some 300⟩ (by decide)⟩

/-- C2 (counterexample): with an empty registry, the request
`GET /files/x` whose catalog lookup returns an owning `server_id`
is answered 500 (`Backend not found in configuration`,
`proxy.rs` lines 128–131), not 503 as the claim states. -/
theorem claim_C2_counterexample :
    (proxy_handler
      { backends := [], health := [],
        db := fun _ => .ok (some "A"),
        select := fun _ => none,
        uriOk := fun _ => true,
        transportOk := fun _ => true }
      "/files/x" none).result = .error 500 ∧
    (Except.error 500 : Except Nat String) ≠ .error 503 := by
  decide

/-- C2 (amended): when the backend registry is empty, the default proxy
handler rejects every request with an error status, which is 503 in
every case except one: when a file ID is extracted from the path and the
catalog lookup returns an owning `server_id`, the registry lookup for it
fails and the handler returns 500 instead. -/
theorem claim_C2_theorem (env : Env) (path : String) (query : Option String)
    (h : env.backends = []) :
    (proxy_handler env path query).result =
      .error (match extract_file_id_from_path path with
        | some fid =>
          match env.db fid with
          | .ok (some _) => 500
          | .ok none => 503
          | .error _ => 503
        | none => 503) := by
  have hlb : select_backend_via_load_balancer env = .error 503 := by
    simp [select_backend_via_load_balancer, get_healthy_backends, h]
  cases hex : extract_file_id_from_path path with
  | none => simp [proxy_handler, chooseBackend, chooseViaLB, hex, hlb]
  | some fid =>
    cases hdb : env.db fid with
    | error e => simp [proxy_handler, chooseBackend, chooseViaLB, hex, hdb, hlb]
    | ok o =>
      cases o with
      | none => simp [proxy_handler, chooseBackend, chooseViaLB, hex, hdb, hlb]
      | some sid => simp [proxy_handler, chooseBackend, hex, hdb, h]

/-- C2 (witness): the theorem applied to an empty registry and a path
with no file ID, giving the 503 of the claim. -/
theorem claim_C2_witness :
    ({ backends := [], health := [],
       db := fun _ => .ok (some "A"),
       select := fun _ => none,
       uriOk := fun _ => true,
       transportOk := fun _ => true } : Env).backends = [] ∧
    (proxy_handler
      { backends := [], health := [],
        db := fun _ => .ok (some "A"),
        select := fun _ => none,
        uriOk := fun _ => true,
        transportOk := fun _ => true }
      "/x" none).result = .error 503 :=
  ⟨rfl,
    (claim_C2_theorem
      { backends := [], health := [],
        db := fun _ => .ok (some "A"),
        select := fun _ => none,
        uriOk := fun _ => true,
        transportOk := fun _ => true }
      "/x" none rfl).trans (by decide)⟩

/-- Auxiliary for C5: the shapes `chooseViaLB` can take. -/
lemma chooseViaLB_cases (env : Env) :
    (∃ s, chooseViaLB env = (.error s, [])) ∨
    (∃ b, chooseViaLB env = (.ok b, [b])) := by
  cases h : select_backend_via_load_balancer env with
  | ok b => exact .inr ⟨b, by simp [chooseViaLB, h]⟩
  | error s => exact .inl ⟨s, by simp [chooseViaLB, h]⟩

/-- Auxiliary for C5: the shapes `chooseBackend` can take — an error with
no balancer event, a content-addressed backend with no balancer event, or
a load-balanced backend recorded as one selection. -/
lemma chooseBackend_cases (env : Env) (path : String) :
    (∃ s, chooseBackend env path = (.error s, [])) ∨
    (∃ b, chooseBackend env path = (.ok b, [])) ∨
    (∃ b, chooseBackend env path = (.ok b, [b])) := by
  cases hex : extract_file_id_from_path path with
  | none =>
    rcases chooseViaLB_cases env with ⟨s, hs⟩ | ⟨b, hb⟩
    · exact .inl ⟨s, by simp [chooseBackend, hex, hs]⟩
    · exact .inr (.inr ⟨b, by simp [chooseBackend, hex, hb]⟩)
  | some fid =>
    cases hdb : env.db fid with
    | error e =>
      rcases chooseViaLB_cases env with ⟨s, hs⟩ | ⟨b, hb⟩
      · exact .inl ⟨s, by simp [chooseBackend, hex, hdb, hs]⟩
      · exact .inr (.inr ⟨b, by simp [chooseBackend, hex, hdb, hb]⟩)
    | ok o =>
      cases o with
      | none =>
        rcases chooseViaLB_cases env with ⟨s, hs⟩ | ⟨b, hb⟩
        · exact .inl ⟨s, by simp [chooseBackend, hex, hdb, hs]⟩
        · exact .inr (.inr ⟨b, by simp [chooseBackend, hex, hdb, hb]⟩)
      | some sid =>
        cases hf : env.backends.find? (fun b => b.server_id == sid) with
        | none => exact .inl ⟨500, by simp [chooseBackend, hex, hdb, hf]⟩
        | some b =>
          by_cases hh : is_backend_healthy env.health sid
          · exact .inr (.inl ⟨b, by simp [chooseBackend, hex, hdb, hf, hh]⟩)
          · exact .inl ⟨503, by simp [chooseBackend, hex, hdb, hf, hh]⟩

/-- Auxiliary for C5: the forwarding phase reports its selection log
unchanged, and releases the forwarded backend exactly when URI
construction succeeded (i.e. in the success and 502 outcomes, but not in
the 500 outcome). -/
lemma forwardRequest_run (env : Env) (b : Backend) (sel : List Backend)
    (path : String) (query : Option String) :
    (forwardRequest env b sel path query).selects = sel ∧
    (forwardRequest env b sel path query).releases =
      (if (forwardRequest env b sel path query).result = .error 500 then []
       else [b]) := by
  unfold forwardRequest
  by_cases h1 : env.uriOk (trimEndSlashes b.server_url ++ pathAndQuery path query)
  · by_cases h2 : env.transportOk (trimEndSlashes b.server_url ++ pathAndQuery path query)
    · simp [h1, h2]
    · simp [h1, h2]
  · simp [h1]

/-- C5 (counterexample): a run of the default handler in which the load
balancer selected a backend but `release_backend` was never executed:
URI construction for the forward URL fails (the 500 path returns at
`proxy.rs` line 170, before any `release_backend` call). -/
theorem claim_C5_counterexample :
    (proxy_handler
      { backends := [⟨"A", "prov", "a", "not a url"⟩], health := [],
        db := fun _ => .ok none,
        select := fun l => l.head?,
        uriOk := fun _ => false,
        transportOk := fun _ => true }
      "/x" none).selects = [⟨"A", "prov", "a", "not a url"⟩] ∧
    (proxy_handler
      { backends := [⟨"A", "prov", "a", "not a url"⟩], health := [],
        db := fun _ => .ok none,
        select := fun l => l.head?,
        uriOk := fun _ => false,
        transportOk := fun _ => true }
      "/x" none).releases = [] ∧
    ([] : List Backend) ≠ [⟨"A", "prov", "a", "not a url"⟩] := by
  decide

/-- C5 (amended): for every selection made through the load balancer by
the default proxy handler, `balancer.release` of the selected backend is
executed exactly once when forwarding succeeds and exactly once when
forwarding fails with a transport error (the 502 path), but zero times
when forward-URI construction fails (the 500 path returns before the
release call). -/
theorem claim_C5_theorem (env : Env) (path : String) (query : Option String)
    (b : Backend) (h : (proxy_handler env path query).selects = [b]) :
    (proxy_handler env path query).releases =
      (if (proxy_handler env path query).result = .error 500 then [] else [b]) := by
  rcases chooseBackend_cases env path with ⟨s, hcb⟩ | ⟨c, hcb⟩ | ⟨c, hcb⟩
  · rw [proxy_handler, hcb] at h
    exact absurd h (by simp)
  · rw [proxy_handler, hcb] at h ⊢
    rw [(forwardRequest_run env c [] path query).1] at h
    exact absurd h (by simp)
  · rw [proxy_handler, hcb] at h ⊢
    rw [(forwardRequest_run env c [c] path query).1] at h
    obtain rfl : c = b := by simpa using h
    exact (forwardRequest_run env c [c] path query).2

/-- C5 (witness): the theorem applied to a successful forward — the
selected backend is released exactly once. -/
theorem claim_C5_witness :
    (proxy_handler
      { backends := [⟨"A", "prov", "a", "http://a"⟩], health := [],
        db := fun _ => .ok none,
        select := fun l => l.head?,
        uriOk := fun _ => true,
        transportOk := fun _ => true }
      "/x" none).selects = [⟨"A", "prov", "a", "http://a"⟩] ∧
    (proxy_handler
      { backends := [⟨"A", "prov", "a", "http://a"⟩], health := [],
        db := fun _ => .ok none,
        select := fun l => l.head?,
        uriOk := fun _ => true,
        transportOk := fun _ => true }
      "/x" none).releases =
      (if (proxy_handler
          { backends := [⟨"A", "prov", "a", "http://a"⟩], health := [],
            db := fun _ => .ok none,
            select := fun l => l.head?,
            uriOk := fun _ => true,
            transportOk := fun _ => true }
          "/x" none).result = .error 500 then []
       else [⟨"A", "prov", "a", "http://a"⟩]) :=
  ⟨by decide,
    claim_C5_theorem
      { backends := [⟨"A", "prov", "a", "http://a"⟩], health := [],
        db := fun _ => .ok none,
        select := fun l => l.head?,
        uriOk := fun _ => true,
        transportOk := fun _ => true }
      "/x" none ⟨"A", "prov", "a", "http://a"⟩ (by decide)⟩

/-- Auxiliary for C10: splitting a separator-free chunk. -/
lemma splitAux_no_sep :
    ∀ (xs cur : List Char), '/' ∉ xs → splitAux cur xs = [cur.reverse ++ xs]
  | [], cur, _ => by simp [splitAux]
  | x :: xs, cur, h => by
    have hx : ¬ x = '/' := fun he => h (he ▸ List.mem_cons_self x xs)
    rw [splitAux, if_neg hx, splitAux_no_sep xs (x :: cur) (fun hm => h (List.mem_cons_of_mem x hm))]
    simp

/-- Auxiliary for C10: splitting at the first separator after a
separator-free chunk. -/
lemma splitAux_sep :
    ∀ (xs : List Char) (cur ys : List Char), '/' ∉ xs →
      splitAux cur (xs ++ '/' :: ys) = (cur.reverse ++ xs) :: splitAux [] ys
  | [], cur, ys, _ => by simp [splitAux]
  | x :: xs, cur, ys, h => by
    have hx : ¬ x = '/' := fun he => h (he ▸ List.mem_cons_self x xs)
    rw [List.cons_append, splitAux, if_neg hx,
      splitAux_sep xs (x :: cur) ys (fun hm => h (List.mem_cons_of_mem x hm))]
    simp

/-- Auxiliary for C10: the segment list of `/api/{X}/files/{id}` for
single-segment `X` and `id`. -/
lemma pathSegments_api_files (X id : String)
    (hX : '/' ∉ X.data) (hid : '/' ∉ id.data) :
    pathSegments ("/api/" ++ X ++ "/files/" ++ id) = ["api", X, "files", id] := by
  have hdata : ("/api/" ++ X ++ "/files/" ++ id).data
      = '/' :: (['a', 'p', 'i'] ++ '/' ::
          (X.data ++ '/' :: (['f', 'i', 'l', 'e', 's'] ++ '/' :: id.data))) := by
    rw [String.data_append, String.data_append, String.data_append]
    have h1 : ("/api/" : String).data = ['/', 'a', 'p', 'i', '/'] := by decide
    have h2 : ("/files/" : String).data = ['/', 'f', 'i', 'l', 'e', 's', '/'] := by decide
    rw [h1, h2]
    simp
  unfold pathSegments splitSlash
  rw [hdata]
  show (splitAux []
      (['a', 'p', 'i'] ++ '/' ::
        (X.data ++ '/' :: (['f', 'i', 'l', 'e', 's'] ++ '/' :: id.data)))).map String.mk
    = ["api", X, "files", id]
  rw [splitAux_sep _ _ _ (by decide), splitAux_sep _ _ _ hX,
    splitAux_sep _ _ _ (by decide), splitAux_no_sep _ _ hid]
  cases X with
  | mk xd => cases id with
    | mk idd => simp

/-- Auxiliary for C10: the segment list of `/api/{X}/files/download/{id}`
for single-segment `X` and `id`. -/
lemma pathSegments_api_files_download (X id : String)
    (hX : '/' ∉ X.data) (hid : '/' ∉ id.data) :
    pathSegments ("/api/" ++ X ++ "/files/download/" ++ id)
      = ["api", X, "files", "download", id] := by
  have hdata : ("/api/" ++ X ++ "/files/download/" ++ id).data
      = '/' :: (['a', 'p', 'i'] ++ '/' ::
          (X.data ++ '/' :: (['f', 'i', 'l', 'e', 's'] ++ '/' ::
            (['d', 'o', 'w', 'n', 'l', 'o', 'a', 'd'] ++ '/' :: id.data)))) := by
    rw [String.data_append, String.data_append, String.data_append]
    have h1 : ("/api/" : String).data = ['/', 'a', 'p', 'i', '/'] := by decide
    have h2 : ("/files/download/" : String).data
        = ['/', 'f', 'i', 'l', 'e', 's', '/', 'd', 'o', 'w', 'n', 'l', 'o', 'a', 'd', '/'] := by
      decide
    rw [h1, h2]
    simp
  unfold pathSegments splitSlash
  rw [hdata]
  show (splitAux []
      (['a', 'p', 'i'] ++ '/' ::
        (X.data ++ '/' :: (['f', 'i', 'l', 'e', 's'] ++ '/' ::
          (['d', 'o', 'w', 'n', 'l', 'o', 'a', 'd'] ++ '/' :: id.data))))).map String.mk
    = ["api", X, "files", "download", id]
  rw [splitAux_sep _ _ _ (by decide), splitAux_sep _ _ _ hX,
    splitAux_sep _ _ _ (by decide), splitAux_sep _ _ _ (by decide),
    splitAux_no_sep _ _ hid]
  cases X with
  | mk xd => cases id with
    | mk idd => simp

/-- C10: file-ID extraction never inspects the second path segment —
for every non-empty single-segment `id` and every single-segment `X`
(no `'/'` in either), `/api/{X}/files/{id}` yields `id` and
`/api/{X}/files/download/{id}` yields `id`; only segments 0 (`api`),
2 (`files`) and 3 (`download`) are tested, not `X`. -/
theorem claim_C10_theorem (X id : String)
    (hX : '/' ∉ X.data) (hid : '/' ∉ id.data) (hne : id ≠ "") :
    extract_file_id_from_path ("/api/" ++ X ++ "/files/" ++ id) = some id ∧
    extract_file_id_from_path ("/api/" ++ X ++ "/files/download/" ++ id) = some id := by
  constructor
  · unfold extract_file_id_from_path
    rw [pathSegments_api_files X id hX hid]
    simp
  · unfold extract_file_id_from_path
    rw [pathSegments_api_files_download X id hX hid]
    simp

/-- C10 (witness): the theorem at `X = "v2"`, `id = "abc"`. -/
theorem claim_C10_witness :
    '/' ∉ ("v2" : String).data ∧ '/' ∉ ("abc" : String).data ∧ ("abc" : String) ≠ "" ∧
    (extract_file_id_from_path "/api/v2/files/abc" = some "abc" ∧
      extract_file_id_from_path "/api/v2/files/download/abc" = some "abc") :=
  ⟨by decide, by decide, by decide, claim_C10_theorem "v2" "abc" (by decide) (by decide) (by decide)⟩

/-- Auxiliary for C8: the number of calls `j < n`, starting at counter
value `c`, whose round-robin index `(c + j) % k` equals `i`. -/
def countHits (k i c : Nat) : Nat → Nat
  | 0 => 0
  | n + 1 => countHits k i c n + (if (c + n) % k = i then 1 else 0)

/-- Auxiliary for C8: splitting a window of calls. -/
lemma countHits_add (k i c A : Nat) :
    ∀ B, countHits k i c (A + B) = countHits k i c A + countHits k i (c + A) B
  | 0 => by simp [countHits]
  | B + 1 => by
    show countHits k i c ((A + B) + 1) = _
    rw [countHits, countHits_add k i c A B, countHits]
    rw [Nat.add_assoc c A B, Nat.add_assoc]

/-- Auxiliary for C8: a window of length 1. -/
lemma countHits_one (k i c : Nat) :
    countHits k i c 1 = if c % k = i then 1 else 0 := by
  show 0 + (if (c + 0) % k = i then 1 else 0) = _
  rw [Nat.add_zero, Nat.zero_add]

/-- Auxiliary for C8: the window `[0, m)` with `m ≤ k` contains the
residue `i` at most once, namely exactly when `i < m`. -/
lemma countHits_zero_start (k i : Nat) (hik : i < k) :
    ∀ m, m ≤ k → countHits k i 0 m = if i < m then 1 else 0 := by
  intro m
  induction m with
  | zero => intro _; simp [countHits]
  | succ m ih =>
    intro hm
    have hmk : m < k := by omega
    rw [countHits, ih (by omega)]
    rw [Nat.zero_add, Nat.mod_eq_of_lt hmk]
    split_ifs <;> omega

/-- Auxiliary for C8: every full period of `k` consecutive calls hits
the residue `i` exactly once, wherever the counter starts. -/
lemma countHits_period (k i : Nat) (hk : 0 < k) (hik : i < k) :
    ∀ c, countHits k i c k = 1 := by
  intro c
  induction c with
  | zero => rw [countHits_zero_start k i hik k le_rfl, if_pos hik]
  | succ c ih =>
    have h1 : countHits k i c (1 + k) = countHits k i c 1 + countHits k i (c + 1) k :=
      countHits_add k i c 1 k
    have h2 : countHits k i c (k + 1) = countHits k i c k + countHits k i (c + k) 1 :=
      countHits_add k i c k 1
    rw [Nat.add_comm 1 k, h2] at h1
    rw [countHits_one, countHits_one, Nat.add_mod_right, ih] at h1
    omega

/-- Auxiliary for C8: `q` full periods hit the residue exactly `q` times. -/
lemma countHits_mul (k i : Nat) (hk : 0 < k) (hik : i < k) :
    ∀ q c, countHits k i c (k * q) = q := by
  intro q
  induction q with
  | zero => intro c; rw [Nat.mul_zero]; rfl
  | succ q ih =>
    intro c
    rw [Nat.mul_succ, countHits_add, ih, countHits_period k i hk hik]

/-- Auxiliary for C8: the fairness bound — in any window of `N` calls
each residue is hit `⌊N/k⌋` or `⌈N/k⌉ = (N + k - 1)/k` times. -/
lemma countHits_fair (k i : Nat) (hk : 0 < k) (hik : i < k) (c N : Nat) :
    countHits k i c N = N / k ∨ countHits k i c N = (N + k - 1) / k := by
  obtain ⟨q, s, hs, hN⟩ : ∃ q s, s < k ∧ N = k * q + s :=
    ⟨N / k, N % k, Nat.mod_lt _ hk, (Nat.div_add_mod N k).symm⟩
  subst hN
  rw [countHits_add, countHits_mul k i hk hik]
  have hdiv : (k * q + s) / k = q := by
    rw [Nat.mul_add_div hk, Nat.div_eq_of_lt hs, Nat.add_zero]
  have hple : countHits k i (c + k * q) s ≤ 1 := by
    have hsplit : countHits k i (c + k * q) k
        = countHits k i (c + k * q) s + countHits k i (c + k * q + s) (k - s) := by
      rw [← countHits_add]
      congr 1
      omega
    have := countHits_period k i hk hik (c + k * q)
    omega
  rcases (by omega : countHits k i (c + k * q) s = 0 ∨ countHits k i (c + k * q) s = 1)
    with h0 | h1
  · left
    rw [h0, hdiv, Nat.add_zero]
  · right
    have hs1 : 1 ≤ s := by
      rcases Nat.eq_zero_or_pos s with rfl | hp
      · rw [show countHits k i (c + k * q) 0 = 0 from rfl] at h1
        omega
      · exact hp
    have harr : k * q + s + k - 1 = k * (q + 1) + (s - 1) := by
      rw [Nat.mul_succ]
      omega
    rw [h1, harr, Nat.mul_add_div hk, Nat.div_eq_of_lt (by omega), Nat.add_zero]

/-- Auxiliary for C8: the backend returned by the `j`-th round-robin
call on a fixed non-empty list, and the counter threading. -/
lemma rrStep_eq (bs : List Backend) (hk : bs.length ≠ 0) (c : Nat) :
    rrStep bs c = (some (bs.get ⟨c % bs.length, Nat.mod_lt _ (Nat.pos_of_ne_zero hk)⟩), c + 1) := by
  simp [rrStep, hk]

/-- Auxiliary for C8: how often a fixed (duplicate-free) candidate is
returned over `N` round-robin calls, as a residue count. -/
lemma rrRun_count (bs : List Backend) (hk : bs.length ≠ 0) (hnd : bs.Nodup)
    (i : Nat) (hi : i < bs.length) :
    ∀ N c, (rrRun bs c N).count (some (bs.get ⟨i, hi⟩)) = countHits bs.length i c N := by
  intro N
  induction N with
  | zero => intro c; rfl
  | succ N ih =>
    intro c
    show ((rrStep bs c).1 :: rrRun bs (rrStep bs c).2 N).count (some (bs.get ⟨i, hi⟩))
      = countHits bs.length i c (N + 1)
    rw [rrStep_eq bs hk c]
    have hpeel : countHits bs.length i c (N + 1)
        = (if c % bs.length = i then 1 else 0) + countHits bs.length i (c + 1) N := by
      have := countHits_add bs.length i c 1 N
      rw [Nat.add_comm 1 N] at this
      rw [this, countHits_one]
    rw [hpeel, List.count_cons, ih (c + 1)]
    by_cases hc : c % bs.length = i
    · have : bs.get ⟨c % bs.length, Nat.mod_lt _ (Nat.pos_of_ne_zero hk)⟩
          = bs.get ⟨i, hi⟩ := by
        congr 1
        exact Fin.ext hc
      rw [this]
      simp [Nat.add_comm, hc]
    · have hne : ¬ (bs.get ⟨c % bs.length, Nat.mod_lt _ (Nat.pos_of_ne_zero hk)⟩
          = bs.get ⟨i, hi⟩) := by
        intro he
        exact hc (Fin.mk.injEq .. ▸ (hnd.get_inj_iff.mp he))
      simp only [List.get_eq_getElem] at hne
      simp [hc, hne]

/-- C8: round-robin fairness — over every non-empty duplicate-free
candidate list of size `k`, every initial counter value `c`, and `N`
sequential `select_backend` calls on that same list, each candidate is
returned exactly `⌊N/k⌋` or `⌈N/k⌉ = (N + k - 1)/k` times. -/
theorem claim_C8_theorem (bs : List Backend) (c N i : Nat)
    (hne : bs ≠ []) (hnd : bs.Nodup) (hi : i < bs.length) :
    (rrRun bs c N).count (some (bs.get ⟨i, hi⟩)) = N / bs.length ∨
    (rrRun bs c N).count (some (bs.get ⟨i, hi⟩)) = (N + bs.length - 1) / bs.length := by
  have hk : bs.length ≠ 0 := fun h => hne (List.length_eq_zero.mp h)
  rw [rrRun_count bs hk hnd i hi N c]
  exact countHits_fair bs.length i (Nat.pos_of_ne_zero hk) hi c N

/-- C8 (witness): the theorem on a two-backend list with five calls —
the first candidate is selected three times, `⌈5/2⌉`. -/
theorem claim_C8_witness :
    ([⟨"A", "p", "a", "ua"⟩, ⟨"B", "p", "b", "ub"⟩] : List Backend) ≠ [] ∧
    ([⟨"A", "p", "a", "ua"⟩, ⟨"B", "p", "b", "ub"⟩] : List Backend).Nodup ∧
    ((rrRun [⟨"A", "p", "a", "ua"⟩, ⟨"B", "p", "b", "ub"⟩] 0 5).count
        (some (([⟨"A", "p", "a", "ua"⟩, ⟨"B", "p", "b", "ub"⟩] : List Backend).get
          ⟨0, by decide⟩)) = 5 / 2 ∨
      (rrRun [⟨"A", "p", "a", "ua"⟩, ⟨"B", "p", "b", "ub"⟩] 0 5).count
        (some (([⟨"A", "p", "a", "ua"⟩, ⟨"B", "p", "b", "ub"⟩] : List Backend).get
          ⟨0, by decide⟩)) = (5 + 2 - 1) / 2) :=
  ⟨by decide, by decide,
    claim_C8_theorem [⟨"A", "p", "a", "ua"⟩, ⟨"B", "p", "b", "ub"⟩] 0 5 0
      (by decide) (by decide) (by decide)⟩

/-- Auxiliary for C4: incrementing a key raises exactly that key's count. -/
lemma connCount_incr (m : ConnMap) (c x : String) :
    connCount (connIncr m c) x = if x = c then connCount m x + 1 else connCount m x := by
  induction m with
  | nil =>
    by_cases hxc : x = c
    · subst hxc; simp [connIncr, connCount]
    · simp [connIncr, connCount, hxc, show ¬ c = x from fun h => hxc h.symm]
  | cons p rest ih =>
    obtain ⟨k, v⟩ := p
    by_cases hkc : k = c
    · subst hkc
      by_cases hkx : k = x
      · subst hkx; simp [connIncr, connCount]
      · simp [connIncr, connCount, hkx, show ¬ x = k from fun h => hkx h.symm]
    · by_cases hkx : k = x
      · subst hkx
        simp [connIncr, connCount, hkc, show ¬ k = c from hkc]
      · simp [connIncr, connCount, hkc, hkx, ih]

/-- Auxiliary for C4: incrementing any key raises the total by one. -/
lemma sumCounts_incr (m : ConnMap) (c : String) :
    sumCounts (connIncr m c) = sumCounts m + 1 := by
  induction m with
  | nil => rfl
  | cons p rest ih =>
    obtain ⟨k, v⟩ := p
    by_cases hkc : k = c
    · simp [connIncr, sumCounts, hkc]
      omega
    · simp only [connIncr, if_neg hkc]
      simp [sumCounts] at ih ⊢
      omega

/-- Auxiliary for C4: decrementing a key lowers exactly that key's count
(saturating at zero, and a no-op on an absent key, both captured by
truncated subtraction). -/
lemma connCount_decr (m : ConnMap) (c x : String) :
    connCount (connDecr m c) x = if x = c then connCount m x - 1 else connCount m x := by
  induction m with
  | nil => simp [connDecr, connCount]
  | cons p rest ih =>
    obtain ⟨k, v⟩ := p
    by_cases hkc : k = c
    · subst hkc
      by_cases hkx : k = x
      · subst hkx; simp [connDecr, connCount]
      · simp [connDecr, connCount, hkx, show ¬ x = k from fun h => hkx h.symm]
    · by_cases hkx : k = x
      · subst hkx
        simp [connDecr, connCount, hkc, show ¬ k = c from hkc]
      · simp [connDecr, connCount, hkc, hkx, ih]

/-- Auxiliary for C4: any single count is at most the total. -/
lemma connCount_le_sum (m : ConnMap) (x : String) :
    connCount m x ≤ sumCounts m := by
  induction m with
  | nil => exact le_rfl
  | cons p rest ih =>
    obtain ⟨k, v⟩ := p
    by_cases hkx : k = x
    · simp only [connCount, if_pos hkx, sumCounts, List.map_cons, List.sum_cons]
      exact Nat.le_add_right v _
    · simp only [connCount, if_neg hkx, sumCounts, List.map_cons, List.sum_cons] at ih ⊢
      omega

/-- Auxiliary for C4: decrementing a positive key lowers the total by one. -/
lemma sumCounts_decr (m : ConnMap) (c : String) (h : 1 ≤ connCount m c) :
    sumCounts (connDecr m c) = sumCounts m - 1 := by
  induction m with
  | nil => simp [connCount] at h
  | cons p rest ih =>
    obtain ⟨k, v⟩ := p
    by_cases hkc : k = c
    · rw [connCount, if_pos hkc] at h
      rw [connDecr, if_pos hkc]
      simp only [sumCounts, List.map_cons, List.sum_cons]
      omega
    · rw [connCount, if_neg hkc] at h
      have hrest := ih h
      have hrest1 : 1 ≤ sumCounts rest := le_trans h (connCount_le_sum rest c)
      rw [connDecr, if_neg hkc]
      show v + sumCounts (connDecr rest c) = sumCounts ((k, v) :: rest) - 1
      rw [hrest]
      show v + (sumCounts rest - 1) = v + sumCounts rest - 1
      omega

/-- Auxiliary for C4: once the well-formedness flag is false it stays
false for the rest of the trace. -/
lemma lcStep_false :
    ∀ (w : List LCEvent) (st : ConnMap × List String × Bool),
      st.2.2 = false → (w.foldl lcStep st).2.2 = false
  | [], _, h => h
  | e :: w, st, h => by
    rw [List.foldl_cons]
    apply lcStep_false w
    obtain ⟨m, infl, flag⟩ := st
    have hf : flag = false := h
    subst hf
    cases e with
    | select bs =>
      rcases hsel : lcSelect bs m with ⟨o, m'⟩
      cases o <;> simp [lcStep, hsel]
    | release b => simp [lcStep]

/-- Auxiliary for C4: along any well-formed trace, the total of the
connection-count map evolves exactly as selections minus releases, given
that the in-flight multiset is dominated by the map and the total equals
the number in flight. -/
lemma lcRun_aux :
    ∀ (w : List LCEvent) (m : ConnMap) (infl : List String),
      (∀ x, infl.count x ≤ connCount m x) →
      sumCounts m = infl.length →
      (w.foldl lcStep (m, infl, true)).2.2 = true →
      (sumCounts (w.foldl lcStep (m, infl, true)).1 : ℤ)
        = (sumCounts m : ℤ) + selCount w - relCount w
  | [], m, infl, _, _, _ => by simp [selCount, relCount]
  | .select [] :: w, m, infl, hcnt, hsum, hwf => by
    have hstep : lcStep (m, infl, true) (.select []) = (m, infl, true) := rfl
    rw [List.foldl_cons, hstep] at hwf ⊢
    rw [lcRun_aux w m infl hcnt hsum hwf]
    have hsel : selCount (.select [] :: w) = selCount w := by
      simp [selCount, List.filter_cons]
    have hrel : relCount (.select [] :: w) = relCount w := by
      simp [relCount, List.filter_cons]
    rw [hsel, hrel]
  | .select (b :: rest) :: w, m, infl, hcnt, hsum, hwf => by
    have hstep : lcStep (m, infl, true) (.select (b :: rest))
        = (connIncr m (lcArgminGo m b rest).server_id,
           (lcArgminGo m b rest).server_id :: infl, true) := rfl
    rw [List.foldl_cons, hstep] at hwf ⊢
    have hcnt' : ∀ x, ((lcArgminGo m b rest).server_id :: infl).count x
        ≤ connCount (connIncr m (lcArgminGo m b rest).server_id) x := by
      intro x
      rw [connCount_incr]
      by_cases hx : x = (lcArgminGo m b rest).server_id
      · subst hx
        rw [if_pos rfl, List.count_cons_self]
        exact Nat.succ_le_succ (hcnt _)
      · rw [if_neg hx, List.count_cons_of_ne hx]
        exact hcnt x
    have hsum' : sumCounts (connIncr m (lcArgminGo m b rest).server_id)
        = ((lcArgminGo m b rest).server_id :: infl).length := by
      rw [sumCounts_incr, hsum]
      rfl
    rw [lcRun_aux w _ _ hcnt' hsum' hwf, sumCounts_incr]
    have hsel : selCount (.select (b :: rest) :: w) = selCount w + 1 := by
      simp [selCount, List.filter_cons]
    have hrel : relCount (.select (b :: rest) :: w) = relCount w := by
      simp [relCount, List.filter_cons]
    rw [hsel, hrel]
    push_cast
    ring
  | .release b :: w, m, infl, hcnt, hsum, hwf => by
    have hstep : lcStep (m, infl, true) (.release b)
        = (connDecr m b.server_id, infl.erase b.server_id,
           infl.contains b.server_id) := by
      simp [lcStep, lcRelease]
    rw [List.foldl_cons, hstep] at hwf ⊢
    have hmem : b.server_id ∈ infl := by
      by_cases hc : infl.contains b.server_id = true
      · simpa using hc
      · exfalso
        have hfalse : infl.contains b.server_id = false := by
          cases hb : infl.contains b.server_id
          · rfl
          · exact absurd hb hc
        rw [hfalse] at hwf
        have hff := lcStep_false w (connDecr m b.server_id, infl.erase b.server_id, false) rfl
        rw [hwf] at hff
        exact Bool.noConfusion hff
    have hcont : infl.contains b.server_id = true := by simpa using hmem
    rw [hcont] at hwf ⊢
    have hge1 : 1 ≤ connCount m b.server_id :=
      le_trans (List.count_pos_iff.mpr hmem) (hcnt b.server_id)
    have hcnt' : ∀ x, (infl.erase b.server_id).count x
        ≤ connCount (connDecr m b.server_id) x := by
      intro x
      rw [connCount_decr]
      by_cases hx : x = b.server_id
      · subst hx
        rw [if_pos rfl, List.count_erase_self]
        exact Nat.sub_le_sub_right (hcnt _) 1
      · rw [if_neg hx, List.count_erase_of_ne hx]
        exact hcnt x
    have hsum' : sumCounts (connDecr m b.server_id)
        = (infl.erase b.server_id).length := by
      rw [sumCounts_decr m b.server_id hge1, List.length_erase_of_mem hmem, hsum]
    rw [lcRun_aux w _ _ hcnt' hsum' hwf, sumCounts_decr m b.server_id hge1]
    have hsumge : 1 ≤ sumCounts m := le_trans hge1 (connCount_le_sum m b.server_id)
    have hsel : selCount (.release b :: w) = selCount w := by
      simp [selCount, List.filter_cons]
    have hrel : relCount (.release b :: w) = relCount w + 1 := by
      simp [relCount, List.filter_cons]
    rw [hsel, hrel]
    push_cast [hsumge]
    ring

/-- C4 (counterexample): the connection-count sum does *not* equal
"selections minus releases" over every finite sequence of
`select_backend` and `release_backend` calls: after one selection of `A`
and two releases of `A` (the default handler issues such an unmatched
release whenever it forwards a content-addressed request, and the second
decrement saturates at zero), the sum is `0` while
`selects - releases = -1`. -/
theorem claim_C4_counterexample :
    sumCounts (lcRun [.select [⟨"A", "p", "a", "u"⟩],
      .release ⟨"A", "p", "a", "u"⟩, .release ⟨"A", "p", "a", "u"⟩]).1 = 0 ∧
    selCount [.select [⟨"A", "p", "a", "u"⟩],
      .release ⟨"A", "p", "a", "u"⟩, .release ⟨"A", "p", "a", "u"⟩] = 1 ∧
    relCount [.select [⟨"A", "p", "a", "u"⟩],
      .release ⟨"A", "p", "a", "u"⟩, .release ⟨"A", "p", "a", "u"⟩] = 2 ∧
    (0 : ℤ) ≠ (1 : ℤ) - 2 := by
  refine ⟨by decide, by decide, by decide, by decide⟩

/-- C4 (amended): over every finite sequence of `select_backend` and
`release_backend` calls in which each release matches a prior unreleased
selection of the same backend (the well-formedness flag of the trace),
the sum of all entries of the connection-count map equals the number of
selections minus the number of releases performed so far; and no entry
is ever negative (the counters are naturals with saturating decrement,
so every entry of every reachable map is `≥ 0` unconditionally). -/
theorem claim_C4_theorem (w : List LCEvent) (hwf : (lcRun w).2.2 = true) :
    (sumCounts (lcRun w).1 : ℤ) = selCount w - relCount w ∧
    ∀ p ∈ (lcRun w).1, (0 : ℤ) ≤ (p.2 : ℤ) := by
  constructor
  · have h := lcRun_aux w [] [] (fun x => le_rfl) rfl hwf
    simpa [sumCounts] using h
  · intro p _
    exact Int.natCast_nonneg p.2

/-- C4 (witness): the theorem on the balanced trace
"select `A`, then release `A`" — the sum returns to `0 = 1 - 1`. -/
theorem claim_C4_witness :
    (lcRun [.select [⟨"A", "p", "a", "u"⟩], .release ⟨"A", "p", "a", "u"⟩]).2.2 = true ∧
    ((sumCounts (lcRun [.select [⟨"A", "p", "a", "u"⟩],
        .release ⟨"A", "p", "a", "u"⟩]).1 : ℤ)
      = selCount [.select [⟨"A", "p", "a", "u"⟩], .release ⟨"A", "p", "a", "u"⟩]
        - relCount [.select [⟨"A", "p", "a", "u"⟩], .release ⟨"A", "p", "a", "u"⟩] ∧
      ∀ p ∈ (lcRun [.select [⟨"A", "p", "a", "u"⟩],
        .release ⟨"A", "p", "a", "u"⟩]).1, (0 : ℤ) ≤ (p.2 : ℤ)) :=
  ⟨by decide,
    claim_C4_theorem [.select [⟨"A", "p", "a", "u"⟩], .release ⟨"A", "p", "a", "u"⟩]
      (by decide)⟩

end VKGateway
